import Mathlib

/-!
Verification development for the `ShadowNode` core
(`ReactCommon/fabric/core/shadownode/ShadowNode.cpp`).

Shallow embedding conventions:
- child-node handles (`shared_ptr` identities) are modelled as natural numbers;
  pointer equality becomes equality of those numbers;
- the heap of children lists (each `SharedShadowNodeList` allocation) is a
  `Store`: a list of lists indexed by handle, so that sharing and
  copy-on-write reallocation are observable;
- `int` / `size_t` behaviour in `replaceChild` is modelled on `Int` / `Nat`
  with the C++ usual-arithmetic conversion `(size_t)i = i mod 2^64` made
  explicit;
- the `Sealable` base class and the `EventEmitter` / `ShadowNodeFragment`
  collaborators are not part of the source tree; where needed they are
  modelled from the spec (marked in their doc comments).
-/

namespace ShadowNode

/-- Pointer identities. -/
abbrev Ptr := Nat

/-- `std::replace(begin, end, oldChild, newChild)`: every element equal to
`oldv` is replaced by `newv`. -/
def stdReplace (l : List Ptr) (oldv newv : Ptr) : List Ptr :=
  l.map (fun x => if x = oldv then newv else x)

/-- The body of `ShadowNode::replaceChild` acting on the (already exclusively
owned) children list.  `hint` is the C++ `int suggestedIndex`; the comparison
`suggestedIndex < nonConstChildren->size()` converts the `int` to `size_t`,
modelled by `(hint % 2^64).toNat`. -/
def replaceChildList (children : List Ptr) (oldChild newChild : Ptr) (hint : Int) : List Ptr :=
  if hint ≠ -1 ∧ (hint % (2 ^ 64 : Int)).toNat < children.length then
    if children.getD (hint % (2 ^ 64 : Int)).toNat 0 = oldChild then
      children.set (hint % (2 ^ 64 : Int)).toNat newChild
    else
      stdReplace children oldChild newChild
  else
    stdReplace children oldChild newChild

/-- The heap of `SharedShadowNodeList` allocations: `lists.get h` is the
children list held by handle `h`; allocating (`std::make_shared`) appends a
fresh list at the end, so a fresh handle always differs from live ones. -/
structure Store where
  lists : List (List Ptr)
deriving DecidableEq

def Store.read (st : Store) (h : Nat) : List Ptr :=
  st.lists.getD h []

def Store.write (st : Store) (h : Nat) (l : List Ptr) : Store :=
  ⟨st.lists.set h l⟩

/-- `std::make_shared<SharedShadowNodeList>(contents)`: a fresh handle. -/
def Store.alloc (st : Store) (l : List Ptr) : Nat × Store :=
  (st.lists.length, ⟨st.lists ++ [l]⟩)

/-- The `ShadowNode` fields relevant to the claims.  `props` and
`eventEmitter` are shared-pointer identities; `childrenHandle` indexes the
`Store`; `localData` is a nullable shared pointer (the C++ default is null);
`sealedFlag` is the `Sealable` state, modelled from the spec (false at
construction, set once by `seal`). -/
structure SNode where
  tag : Int
  rootTag : Int
  props : Ptr
  eventEmitter : Ptr
  childrenHandle : Nat
  localData : Option Ptr
  childrenAreShared : Bool
  revision : Nat
  sealedFlag : Bool
deriving DecidableEq

/-- Modelled from the spec: `Sealable::ensureUnsealed`, invoked at the top of
every mutator, fails fatally when the node is sealed (the fault aborts the
mutation before any state change). -/
def ensureUnsealed (n : SNode) : Except Unit Unit :=
  if n.sealedFlag then .error () else .ok ()

/-- `ShadowNode::cloneChildrenIfShared`: if the children handle is still
shared, clear the flag and repoint `children_` at a freshly allocated copy of
its contents. -/
def cloneChildrenIfShared (n : SNode) (st : Store) : SNode × Store :=
  if !n.childrenAreShared then (n, st)
  else
    let a := st.alloc (st.read n.childrenHandle)
    ({ n with childrenAreShared := false, childrenHandle := a.1 }, a.2)

/-- `ShadowNode::appendChild`: `ensureUnsealed`, copy-on-write, then
`push_back` on the (now exclusively owned) children list. -/
def appendChild (n : SNode) (st : Store) (child : Ptr) :
    Except Unit (SNode × Store) :=
  match ensureUnsealed n with
  | .error e => .error e
  | .ok _ =>
      let p := cloneChildrenIfShared n st
      .ok (p.1, p.2.write p.1.childrenHandle (p.2.read p.1.childrenHandle ++ [child]))

/-- `ShadowNode::replaceChild`: `ensureUnsealed`, copy-on-write, then the
hint-or-scan replacement (`replaceChildList`) on the children list. -/
def replaceChild (n : SNode) (st : Store) (oldChild newChild : Ptr) (hint : Int) :
    Except Unit (SNode × Store) :=
  match ensureUnsealed n with
  | .error e => .error e
  | .ok _ =>
      let p := cloneChildrenIfShared n st
      .ok (p.1, p.2.write p.1.childrenHandle
        (replaceChildList (p.2.read p.1.childrenHandle) oldChild newChild hint))

/-- `ShadowNode::setLocalData`: `ensureUnsealed`, then assign. -/
def setLocalData (n : SNode) (localData : Option Ptr) : Except Unit SNode :=
  match ensureUnsealed n with
  | .error e => .error e
  | .ok _ => .ok { n with localData := localData }

/-- The enabled-flags of live `EventEmitter` objects, indexed by handle.
Modelled from the spec: `setEnabled(bool)` stores the flag on the emitter. -/
def EmStore := List Bool

def EmStore.read (es : EmStore) (h : Ptr) : Bool :=
  List.getD es h false

def EmStore.write (es : EmStore) (h : Ptr) (b : Bool) : EmStore :=
  List.set es h b

/-- `ShadowNode::setMounted` (a `const` method): the single statement
`eventEmitter_->setEnabled(mounted)`.  It returns the node unchanged — the
method body touches no node field and performs no seal check. -/
def setMounted (n : SNode) (es : EmStore) (mounted : Bool) : SNode × EmStore :=
  (n, es.write n.eventEmitter mounted)

/-- Modelled from the spec: `ShadowNodeFragment`, a partial override set; each
field is optional and an absent field (the C++ null / zero default, tested by
`?:` in the clone constructor) means the source value is inherited. -/
structure Fragment where
  tag : Option Int
  rootTag : Option Int
  props : Option Ptr
  eventEmitter : Option Ptr
  children : Option Nat
  localData : Option Ptr
deriving DecidableEq

/-- The fragment with every override absent. -/
def Fragment.empty : Fragment :=
  ⟨none, none, none, none, none, none⟩

/-- The clone constructor `ShadowNode::ShadowNode(sourceShadowNode, fragment)`:
each field is `fragment.field ?: sourceShadowNode.field_`, the clone function
is inherited, `childrenAreShared_` is (re)set to true, `revision_` becomes
`sourceShadowNode.revision_ + 1`, and the fresh `Sealable` state is unsealed.
The source node is only read (`const &`), never written. -/
def cloneNode (source : SNode) (f : Fragment) : SNode :=
  { tag := f.tag.getD source.tag
  , rootTag := f.rootTag.getD source.rootTag
  , props := f.props.getD source.props
  , eventEmitter := f.eventEmitter.getD source.eventEmitter
  , childrenHandle := f.children.getD source.childrenHandle
  , localData := f.localData <|> source.localData
  , childrenAreShared := true
  , revision := source.revision + 1
  , sealedFlag := false }

/-- A tree of shadow nodes carrying only the sealing-relevant state: the
node's own `Sealable` flag, its props' `Sealable` flag, and its children.
(`sealRecursive` reads and writes nothing else.) -/
inductive STree : Type
  | node (nodeSealed : Bool) (propsSealed : Bool) (children : List STree)

mutual

/-- `ShadowNode::sealRecursive`: if `getSealed()` return; otherwise `seal()`,
`props_->seal()` (idempotent flag set, modelled from the spec's payload
contract), then `child->sealRecursive()` for each child. -/
def sealRecursive : STree → STree
  | .node s p cs => if s then .node s p cs else .node true true (sealRecursiveList cs)

/-- The `for (auto child : *children_) child->sealRecursive();` loop. -/
def sealRecursiveList : List STree → List STree
  | [] => []
  | c :: cs => sealRecursive c :: sealRecursiveList cs

end

mutual

/-- Every node reachable from the root, and its props, reports sealed. -/
def allSealed : STree → Bool
  | .node s p cs => s && p && allSealedList cs

def allSealedList : List STree → Bool
  | [] => true
  | c :: cs => allSealed c && allSealedList cs

end

mutual

/-- Every node that is already sealed heads a fully sealed subtree (its props
included).  This is the invariant `sealRecursive` itself maintains, and it is
what its early return relies on; it holds in particular for any tree with no
sealed node. -/
def sealConsistent : STree → Bool
  | .node s p cs => (!s || (p && allSealedList cs)) && sealConsistentList cs

def sealConsistentList : List STree → Bool
  | [] => true
  | c :: cs => sealConsistent c && sealConsistentList cs

end

/-- A shadow-node tree for the ancestor-path search: `id` stands for the
node's address (pointer identity), `children` for `*children_`. -/
inductive PTree : Type
  | mk (id : Nat) (children : List PTree)

def PTree.id : PTree → Nat
  | .mk i _ => i

def PTree.children : PTree → List PTree
  | .mk _ cs => cs

mutual

/-- `ShadowNode::constructAncestorPath(ancestorShadowNode, ancestors)` called
on node `n`: if `this == &ancestorShadowNode` succeed pushing nothing;
otherwise try each child of the ancestor in order, and on the first success
`push_back` the ancestor itself.  The output vector `anc` is threaded
through; `push_back` appends on the right. -/
def constructAncestorPath (n : PTree) : PTree → List PTree → Bool × List PTree
  | .mk i cs, anc =>
    if n.id = i then (true, anc)
    else
      match searchAncestorChildren n cs anc with
      | (true, anc') => (true, anc' ++ [.mk i cs])
      | (false, anc') => (false, anc')

/-- The `for (const auto &childShadowNode : *ancestorShadowNode.children_)`
loop of `constructAncestorPath`. -/
def searchAncestorChildren (n : PTree) : List PTree → List PTree → Bool × List PTree
  | [], anc => (false, anc)
  | c :: cs, anc =>
    match constructAncestorPath n c anc with
    | (true, anc') => (true, anc')
    | (false, anc') => searchAncestorChildren n cs anc'

end

mutual

/-- `n` is the node `a` or occurs (by identity) somewhere below `a`. -/
def reaches (n : PTree) : PTree → Bool
  | .mk i cs => n.id == i || reachesList n cs

def reachesList (n : PTree) : List PTree → Bool
  | [] => false
  | c :: cs => reaches n c || reachesList n cs

end

/-- `n` occurs by identity among the children of `p` (`n`'s parent link in
the found path). -/
def isChildOf (n p : PTree) : Prop :=
  ∃ c ∈ p.children, c.id = n.id

/-- `path = [p1, …, pk]` is an ancestor chain for `n`: `n` is a child of
`p1`, and each `pi` is a child of `pi+1`. -/
def chainFrom : PTree → List PTree → Prop
  | _, [] => True
  | n, p :: ps => isChildOf n p ∧ chainFrom p ps

/-- The endpoint of a found path: an empty path means the search hit `a`
itself; a nonempty path ends with `a`. -/
def pathEnd (n : PTree) (path : List PTree) (a : PTree) : Prop :=
  (path = [] → n.id = a.id) ∧ (path ≠ [] → path.getLast? = some a)

/-! ### List helpers (positional reading of `set`, `++`, `getD`) -/

theorem getD_set_ne {α : Type} (l : List α) (i j : Nat) (a d : α) (h : j ≠ i) :
    (l.set i a).getD j d = l.getD j d := by
  induction l generalizing i j with
  | nil => simp [List.set]
  | cons x xs ih =>
    cases i with
    | zero => cases j with
      | zero => exact absurd rfl h
      | succ j => simp [List.set, List.getD]
    | succ i => cases j with
      | zero => simp [List.set, List.getD]
      | succ j =>
        simp only [List.set_cons_succ, List.getD_cons_succ]
        exact ih i j (fun hji => h (by omega))

theorem getD_set_self {α : Type} (l : List α) (i : Nat) (a d : α) (h : i < l.length) :
    (l.set i a).getD i d = a := by
  induction l generalizing i with
  | nil => simp at h
  | cons x xs ih =>
    cases i with
    | zero => simp [List.set, List.getD]
    | succ i => simpa [List.set, List.getD] using ih i (by simpa using h)

theorem getD_append_lt {α : Type} (l m : List α) (i : Nat) (d : α) (h : i < l.length) :
    (l ++ m).getD i d = l.getD i d := by
  induction l generalizing i with
  | nil => simp at h
  | cons x xs ih =>
    cases i with
    | zero => simp [List.getD]
    | succ i =>
      simp only [List.set_cons_succ, List.getD_cons_succ]
      exact ih i (by simpa using h)

theorem getD_append_self {α : Type} (l : List α) (x d : α) :
    (l ++ [x]).getD l.length d = x := by
  induction l with
  | nil => simp [List.getD]
  | cons y ys ih =>
    simp only [List.cons_append, List.length_cons, List.getD_cons_succ]
    exact ih

theorem set_append_self {α : Type} (l : List α) (x y : α) :
    (l ++ [x]).set l.length y = l ++ [y] := by
  induction l with
  | nil => simp
  | cons z zs ih => simp [List.set, ih]

theorem stdReplace_not_mem (l : List Ptr) (oldv newv : Ptr) (h : oldv ∉ l) :
    stdReplace l oldv newv = l := by
  induction l with
  | nil => rfl
  | cons x xs ih =>
    simp only [List.mem_cons, not_or] at h
    simp [stdReplace, List.map] at ih ⊢
    exact ⟨fun hx => absurd hx (fun hx => h.1 hx.symm ), ih h.2⟩

theorem replaceChildList_not_mem (l : List Ptr) (oldv newv : Ptr) (hint : Int)
    (h : oldv ∉ l) : replaceChildList l oldv newv hint = l := by
  rw [replaceChildList]
  by_cases hc : hint ≠ -1 ∧ ((hint % (2 ^ 64 : Int)).toNat < l.length)
  · rw [if_pos hc]
    have hmem : l.getD (hint % (2 ^ 64 : Int)).toNat 0 ∈ l := by
      rw [List.getD_eq_getElem l 0 hc.2]
      exact List.getElem_mem hc.2
    have hne : ¬ l.getD (hint % (2 ^ 64 : Int)).toNat 0 = oldv := fun he => h (he ▸ hmem)
    rw [if_neg hne]
    exact stdReplace_not_mem l oldv newv h
  · rw [if_neg hc]
    exact stdReplace_not_mem l oldv newv h

/-! ### C1: `replaceChild` hint fast path and scan semantics -/

/-- C1 counterexample: the claim says the fallback scan replaces only the
first element identical to `oldChild`, leaving later duplicates untouched;
on children `[5, 5]` with `oldChild = 5`, `newChild = 7` and no hint, the
code (`std::replace`) produces `[7, 7]`, not `[7, 5]`. -/
theorem C1_replaceChild_counterexample :
    replaceChildList [5, 5] 5 7 (-1) = [7, 7] ∧ ([7, 7] : List Ptr) ≠ [7, 5] := by
  decide

/-- C1 (amended): on an unsealed node, if the hint is a valid index (a
nonnegative index below the length, after the `int`-to-`size_t` conversion)
and the element there is identical to `oldChild`, `replaceChild` replaces
exactly that position; otherwise (for `int`-range hints on realistically
sized sequences) it scans and replaces every element identical to
`oldChild`, leaving all non-matching entries untouched. -/
theorem C1_replaceChild_semantics (children : List Ptr) (oldChild newChild : Ptr)
    (hint : Int) :
    (∀ i : Nat, hint = (i : Int) → i < 2 ^ 64 → i < children.length →
        children.getD i 0 = oldChild →
        replaceChildList children oldChild newChild hint = children.set i newChild) ∧
    (children.length < 2 ^ 32 → -(2 ^ 31) ≤ hint → hint < 2 ^ 31 →
        (hint < 0 ∨ children.length ≤ hint.toNat ∨ children.getD hint.toNat 0 ≠ oldChild) →
        replaceChildList children oldChild newChild hint =
          children.map (fun x => if x = oldChild then newChild else x)) := by
  constructor
  · intro i hi hlt hlen hmatch
    subst hi
    have huidx : (((i : Int)) % 2 ^ 64).toNat = i := by omega
    rw [replaceChildList, if_pos ⟨by omega, by omega⟩, huidx, if_pos hmatch]
  · intro hsz hlo hhi hmiss
    rw [replaceChildList]
    by_cases hc : hint ≠ -1 ∧ ((hint % (2 ^ 64 : Int)).toNat < children.length)
    · rw [if_pos hc]
      have hpos : 0 ≤ hint := by
        rcases lt_or_le hint 0 with hneg | hge
        · exact absurd hc.2 (by omega)
        · exact hge
      have hnem : children.getD (hint % (2 ^ 64 : Int)).toNat 0 ≠ oldChild := by
        have huidx : (hint % (2 ^ 64 : Int)).toNat = hint.toNat := by omega
        rw [huidx]
        rcases hmiss with hneg | hbig | hnem
        · omega
        · exact absurd hc.2 (by omega)
        · exact hnem
      rw [if_neg hnem]
      rfl
    · rw [if_neg hc]
      rfl

/-- C1 witness: a valid matching hint `1` on `[3, 5]` replaces position 1
in place. -/
theorem C1_replaceChild_witness : replaceChildList [3, 5] 5 7 1 = [3, 7] :=
  (C1_replaceChild_semantics [3, 5] 5 7 1).1 1 rfl (by decide) (by decide) (by decide)

/-! ### C2: event handle on clone -/

/-- C2 counterexample: the claim says the fragment never overrides the event
handle; but the clone constructor computes
`eventEmitter_(fragment.eventEmitter ?: sourceShadowNode.eventEmitter_)`, so
a fragment carrying event handle `1` wins over the source's handle `0`. -/
theorem C2_eventEmitter_counterexample :
    (cloneNode ⟨0, 0, 0, 0, 0, none, true, 1, false⟩
        { Fragment.empty with eventEmitter := some 1 }).eventEmitter = 1 ∧
    (⟨0, 0, 0, 0, 0, none, true, 1, false⟩ : SNode).eventEmitter = 0 := by
  decide

/-- C2 (amended): on clone, the new node's event handle is the fragment's
event handle when the fragment carries one, and the source node's event
handle otherwise. -/
theorem C2_eventEmitter_clone (source : SNode) (f : Fragment) :
    (f.eventEmitter = none → (cloneNode source f).eventEmitter = source.eventEmitter) ∧
    (∀ e, f.eventEmitter = some e → (cloneNode source f).eventEmitter = e) := by
  constructor
  · intro h
    simp [cloneNode, h]
  · intro e h
    simp [cloneNode, h]

/-- C2 witness: a fragment override `some 1` lands in the clone. -/
theorem C2_eventEmitter_witness :
    (cloneNode ⟨5, 6, 7, 3, 2, none, true, 4, true⟩
        { Fragment.empty with eventEmitter := some 1 }).eventEmitter = 1 :=
  (C2_eventEmitter_clone ⟨5, 6, 7, 3, 2, none, true, 4, true⟩
    { Fragment.empty with eventEmitter := some 1 }).2 1 rfl

/-! ### C5: clone with an empty fragment -/

/-- C5: cloning a node with the empty fragment bumps the revision by exactly
one and copies every field — tag, root tag, props, event handle, children
handle, auxiliary (local) data — from the source.  `cloneNode` is a pure
function of the source (the C++ constructor takes `const ShadowNode &`), so
the source node itself is untouched. -/
theorem C5_clone_empty_fragment (n : SNode) :
    (cloneNode n Fragment.empty).revision = n.revision + 1 ∧
    (cloneNode n Fragment.empty).tag = n.tag ∧
    (cloneNode n Fragment.empty).rootTag = n.rootTag ∧
    (cloneNode n Fragment.empty).props = n.props ∧
    (cloneNode n Fragment.empty).eventEmitter = n.eventEmitter ∧
    (cloneNode n Fragment.empty).childrenHandle = n.childrenHandle ∧
    (cloneNode n Fragment.empty).localData = n.localData := by
  simp [cloneNode, Fragment.empty]

/-! ### C3: recursive sealing -/

/-- C3 counterexample: on a tree whose root is unsealed but whose only child
was already sealed (with an unsealed payload), `sealRecursive` on the root
short-circuits at the child, so the child's payload still reports unsealed —
not every reachable node and payload is sealed afterwards. -/
theorem C3_sealRecursive_counterexample :
    allSealed (sealRecursive (.node false false [.node true false []])) = false := by
  rfl

theorem sealRecursive_allSealed_aux :
    ∀ t : STree, sealConsistent t = true → allSealed (sealRecursive t) = true := by
  refine sealRecursive.induct
    (fun t => sealConsistent t = true → allSealed (sealRecursive t) = true)
    (fun cs => sealConsistentList cs = true → allSealedList (sealRecursiveList cs) = true)
    ?_ ?_ ?_ ?_
  · intro p cs h
    simp only [sealConsistent, Bool.not_true, Bool.false_or, Bool.and_eq_true] at h
    simp [sealRecursive, allSealed, h.1.1, h.1.2]
  · intro s p cs hs ih h
    have hs' : s = false := by cases s <;> simp_all
    subst hs'
    have h2 : sealConsistentList cs = true := by
      simp only [sealConsistent, Bool.and_eq_true] at h
      exact h.2
    simp [sealRecursive, allSealed, ih h2]
  · intro _
    rfl
  · intro c cs ihc ihcs h
    simp only [sealConsistentList, Bool.and_eq_true] at h
    simp only [sealRecursiveList, allSealedList, Bool.and_eq_true]
    exact ⟨ihc h.1, ihcs h.2⟩

/-- C3 (amended): a second `sealRecursive` on the same root always changes
nothing (the root is sealed after the first call, so it returns
immediately); and whenever every node that is already sealed heads a fully
sealed subtree — in particular on a tree with no sealed node at all —
`sealRecursive` leaves every reachable node and payload sealed. -/
theorem C3_sealRecursive_seals (t : STree) :
    sealRecursive (sealRecursive t) = sealRecursive t ∧
    (sealConsistent t = true → allSealed (sealRecursive t) = true) := by
  constructor
  · cases t with
    | node s p cs =>
      cases s with
      | true => simp [sealRecursive]
      | false => simp [sealRecursive]
  · exact sealRecursive_allSealed_aux t

/-- C3 witness: a fully unsealed two-level tree is fully sealed by one call,
and the second call changes nothing. -/
theorem C3_sealRecursive_witness :
    sealRecursive (sealRecursive (.node false false [.node false false []])) =
      sealRecursive (.node false false [.node false false []]) ∧
    allSealed (sealRecursive (.node false false [.node false false []])) = true :=
  ⟨(C3_sealRecursive_seals (.node false false [.node false false []])).1,
   (C3_sealRecursive_seals (.node false false [.node false false []])).2 rfl⟩

/-! ### C4: mutators on a sealed node fault -/

/-- C4: every mutator — `appendChild`, `replaceChild`, `setLocalData` —
starts with `ensureUnsealed`, so on a sealed node each faults and produces
no successor state: children, payload and auxiliary data are untouched. -/
theorem C4_sealed_mutators_fault (n : SNode) (st : Store) (child oldChild newChild : Ptr)
    (hint : Int) (ld : Option Ptr) (h : n.sealedFlag = true) :
    appendChild n st child = .error () ∧
    replaceChild n st oldChild newChild hint = .error () ∧
    setLocalData n ld = .error () := by
  refine ⟨?_, ?_, ?_⟩ <;> simp [appendChild, replaceChild, setLocalData, ensureUnsealed, h]

/-- C4 witness: a concrete sealed node rejects all three mutators. -/
theorem C4_sealed_mutators_witness :
    appendChild ⟨0, 0, 0, 0, 0, none, true, 1, true⟩ ⟨[[1]]⟩ 2 = .error () ∧
    replaceChild ⟨0, 0, 0, 0, 0, none, true, 1, true⟩ ⟨[[1]]⟩ 1 2 0 = .error () ∧
    setLocalData ⟨0, 0, 0, 0, 0, none, true, 1, true⟩ (some 3) = .error () :=
  C4_sealed_mutators_fault ⟨0, 0, 0, 0, 0, none, true, 1, true⟩ ⟨[[1]]⟩ 2 1 2 0 (some 3) rfl

/-! ### C9: `setMounted` -/

/-- C9: `setMounted` only forwards to `setEnabled` on the node's own event
handle.  It is total over all nodes — sealed ones included, since the method
performs no seal check — returns the node itself unchanged in every field
(tag, root tag, props, children, auxiliary data, revision, seal flag), sets
the node's emitter flag, and leaves every other emitter's flag unchanged. -/
theorem C9_setMounted_passthrough (n : SNode) (es : EmStore) (b : Bool) :
    (setMounted n es b).1 = n ∧
    (n.eventEmitter < es.length →
      EmStore.read (setMounted n es b).2 n.eventEmitter = b) ∧
    (∀ j, j ≠ n.eventEmitter → EmStore.read (setMounted n es b).2 j = es.read j) := by
  refine ⟨rfl, ?_, ?_⟩
  · intro h
    exact getD_set_self es n.eventEmitter b false h
  · intro j hj
    exact getD_set_ne es n.eventEmitter j b false hj

/-- C9 witness: a sealed node's `setMounted` flips its emitter's flag and
nothing else. -/
theorem C9_setMounted_witness :
    (setMounted ⟨0, 0, 0, 1, 0, none, true, 1, true⟩ [false, false, false] true).1 =
      ⟨0, 0, 0, 1, 0, none, true, 1, true⟩ ∧
    EmStore.read (setMounted ⟨0, 0, 0, 1, 0, none, true, 1, true⟩
      [false, false, false] true).2 1 = true ∧
    EmStore.read (setMounted ⟨0, 0, 0, 1, 0, none, true, 1, true⟩
      [false, false, false] true).2 2 = false :=
  have h := C9_setMounted_passthrough ⟨0, 0, 0, 1, 0, none, true, 1, true⟩
    [false, false, false] true
  ⟨h.1, h.2.1 (by decide), h.2.2 2 (by decide)⟩

/-! ### C6: copy-on-write on `appendChild` -/

/-- C6: appending to an unsealed node whose children handle is shared first
copies the handle's list into a fresh, exclusively owned allocation and
appends only there: every previously live handle (hence every other node
sharing the old handle) still reads its old contents; the node's new handle
carries the old contents plus the new child and its shared flag is cleared;
and a second append on the resulting node reallocates nothing and appends in
place on the same handle. -/
theorem C6_appendChild_cow (n : SNode) (st : Store) (child : Ptr)
    (hseal : n.sealedFlag = false) (hshared : n.childrenAreShared = true) :
    match appendChild n st child with
    | .error _ => False
    | .ok p =>
        p.1.childrenAreShared = false ∧
        p.1.childrenHandle = st.lists.length ∧
        (∀ h, h < st.lists.length → p.2.read h = st.read h) ∧
        p.2.read p.1.childrenHandle = st.read n.childrenHandle ++ [child] ∧
        (∀ c2, match appendChild p.1 p.2 c2 with
          | .error _ => False
          | .ok q =>
              q.1.childrenHandle = p.1.childrenHandle ∧
              q.2.lists.length = p.2.lists.length ∧
              q.2.read q.1.childrenHandle = p.2.read p.1.childrenHandle ++ [c2]) := by
  simp only [appendChild, ensureUnsealed, hseal, Bool.false_eq_true, if_false,
    cloneChildrenIfShared, hshared, Bool.not_true, Store.alloc, Store.read, Store.write]
  refine ⟨trivial, trivial, ?_, ?_, ?_⟩
  · intro h hh
    rw [getD_append_self]
    rw [set_append_self]
    exact getD_append_lt st.lists [st.lists.getD n.childrenHandle [] ++ [child]] h [] hh
  · rw [getD_append_self, set_append_self, getD_append_self]
  · intro c2
    simp only [appendChild, ensureUnsealed, hseal, Bool.false_eq_true, if_false,
      cloneChildrenIfShared, Bool.not_false, if_true, Store.read, Store.write]
    rw [getD_append_self, set_append_self]
    refine ⟨trivial, by simp, ?_⟩
    have hlen : st.lists.length < (st.lists ++ [st.lists.getD n.childrenHandle [] ++ [child]]).length := by
      simp
    rw [getD_append_self, getD_set_self _ _ _ _ (by simp)]

/-- C6 witness: appending `5` to a node sharing handle 0 over store
`[[1, 2]]` leaves handle 0 intact and gives the node a private handle. -/
theorem C6_appendChild_witness :
    match appendChild ⟨0, 0, 0, 0, 0, none, true, 1, false⟩ ⟨[[1, 2]]⟩ 5 with
    | .error _ => False
    | .ok p =>
        p.1.childrenAreShared = false ∧
        p.1.childrenHandle = (⟨[[1, 2]]⟩ : Store).lists.length ∧
        (∀ h, h < (⟨[[1, 2]]⟩ : Store).lists.length →
          p.2.read h = Store.read ⟨[[1, 2]]⟩ h) ∧
        p.2.read p.1.childrenHandle = Store.read ⟨[[1, 2]]⟩ 0 ++ [5] ∧
        (∀ c2, match appendChild p.1 p.2 c2 with
          | .error _ => False
          | .ok q =>
              q.1.childrenHandle = p.1.childrenHandle ∧
              q.2.lists.length = p.2.lists.length ∧
              q.2.read q.1.childrenHandle = p.2.read p.1.childrenHandle ++ [c2]) :=
  C6_appendChild_cow ⟨0, 0, 0, 0, 0, none, true, 1, false⟩ ⟨[[1, 2]]⟩ 5 rfl rfl

/-! ### C10: `replaceChild` copies a shared handle even on a miss -/

/-- C10: on an unsealed node whose children handle is shared,
`cloneChildrenIfShared` runs before the search, unconditionally: even when
no element is identical to `oldChild`, the call succeeds, the node ends up
with a fresh (different) exclusively owned children handle, and — on a miss
— that fresh handle holds exactly the old contents. -/
theorem C10_replaceChild_copies_on_miss (n : SNode) (st : Store)
    (oldChild newChild : Ptr) (hint : Int)
    (hseal : n.sealedFlag = false) (hshared : n.childrenAreShared = true)
    (hvalid : n.childrenHandle < st.lists.length) :
    match replaceChild n st oldChild newChild hint with
    | .error _ => False
    | .ok p =>
        p.1.childrenAreShared = false ∧
        p.1.childrenHandle ≠ n.childrenHandle ∧
        (oldChild ∉ st.read n.childrenHandle →
          p.2.read p.1.childrenHandle = st.read n.childrenHandle) := by
  simp only [replaceChild, ensureUnsealed, hseal, Bool.false_eq_true, if_false,
    cloneChildrenIfShared, hshared, Bool.not_true, Store.alloc, Store.read, Store.write]
  refine ⟨trivial, by omega, ?_⟩
  intro hmiss
  rw [getD_append_self, set_append_self, getD_append_self]
  exact replaceChildList_not_mem _ oldChild newChild hint hmiss

/-- C10 witness: node with shared handle 0 over store `[[1, 2]]`; replacing
`9` (absent) still moves the node to fresh handle 1 with the same contents. -/
theorem C10_replaceChild_witness :
    match replaceChild ⟨0, 0, 0, 0, 0, none, true, 1, false⟩ ⟨[[1, 2]]⟩ 9 7 (-1) with
    | .error _ => False
    | .ok p =>
        p.1.childrenAreShared = false ∧
        p.1.childrenHandle ≠ 0 ∧
        (9 ∉ Store.read ⟨[[1, 2]]⟩ 0 →
          p.2.read p.1.childrenHandle = Store.read ⟨[[1, 2]]⟩ 0) :=
  C10_replaceChild_copies_on_miss ⟨0, 0, 0, 0, 0, none, true, 1, false⟩ ⟨[[1, 2]]⟩
    9 7 (-1) rfl rfl (by decide)

/-! ### C8: `replaceChild` is a silent no-op on a miss -/

/-- C8: on an unsealed node (with a live children handle), `replaceChild`
with an `oldChild` that is identical to no element of the children sequence
succeeds — no error is raised — and the children sequence the node sees
afterwards has exactly the contents it had before, whatever the hint was. -/
theorem C8_replaceChild_noop_on_miss (n : SNode) (st : Store)
    (oldChild newChild : Ptr) (hint : Int)
    (hseal : n.sealedFlag = false)
    (hvalid : n.childrenHandle < st.lists.length)
    (hmiss : oldChild ∉ st.read n.childrenHandle) :
    match replaceChild n st oldChild newChild hint with
    | .error _ => False
    | .ok p => p.2.read p.1.childrenHandle = st.read n.childrenHandle := by
  cases hshared : n.childrenAreShared with
  | true =>
    simp only [replaceChild, ensureUnsealed, hseal, Bool.false_eq_true, if_false,
      cloneChildrenIfShared, hshared, Bool.not_true, Store.alloc, Store.read, Store.write]
    rw [getD_append_self, set_append_self, getD_append_self]
    exact replaceChildList_not_mem _ oldChild newChild hint hmiss
  | false =>
    simp only [replaceChild, ensureUnsealed, hseal, Bool.false_eq_true, if_false,
      cloneChildrenIfShared, hshared, Bool.not_false, if_true, Store.read, Store.write]
    rw [replaceChildList_not_mem (st.lists.getD n.childrenHandle []) oldChild newChild hint hmiss]
    exact getD_set_self st.lists n.childrenHandle _ [] hvalid

/-- C8 witness: replacing the absent `9` in children `[1, 2]` (exclusively
owned handle) raises nothing and keeps the contents. -/
theorem C8_replaceChild_witness :
    match replaceChild ⟨0, 0, 0, 0, 0, none, false, 1, false⟩ ⟨[[1, 2]]⟩ 9 7 5 with
    | .error _ => False
    | .ok p => p.2.read p.1.childrenHandle = Store.read ⟨[[1, 2]]⟩ 0 :=
  C8_replaceChild_noop_on_miss ⟨0, 0, 0, 0, 0, none, false, 1, false⟩ ⟨[[1, 2]]⟩
    9 7 5 rfl (by decide) (by decide)

/-! ### C7: ancestor-path reconstruction -/

theorem chainFrom_append_last (a : PTree) :
    ∀ (path : List PTree) (n c : PTree), chainFrom n path → path.getLast? = some c →
      isChildOf c a → chainFrom n (path ++ [a])
  | [], n, c => by intro _ hlast _; simp at hlast
  | p :: ps, n, c => by
    intro hch hlast hc
    cases ps with
    | nil =>
      simp only [List.getLast?_singleton, Option.some.injEq] at hlast
      subst hlast
      exact ⟨hch.1, hc, trivial⟩
    | cons q qs =>
      have hlast' : (q :: qs).getLast? = some c := by
        simpa [List.getLast?_cons_cons] using hlast
      exact ⟨hch.1, chainFrom_append_last a (q :: qs) p c hch.2 hlast' hc⟩

theorem cap_characterization (n : PTree) (a : PTree) (anc : List PTree) :
    ((constructAncestorPath n a anc).1 = reaches n a) ∧
    ((constructAncestorPath n a anc).1 = false → (constructAncestorPath n a anc).2 = anc) ∧
    ((constructAncestorPath n a anc).1 = true →
      ∃ path, (constructAncestorPath n a anc).2 = anc ++ path ∧
        chainFrom n path ∧ pathEnd n path a) := by
  refine constructAncestorPath.induct n
    (fun a anc =>
      ((constructAncestorPath n a anc).1 = reaches n a) ∧
      ((constructAncestorPath n a anc).1 = false → (constructAncestorPath n a anc).2 = anc) ∧
      ((constructAncestorPath n a anc).1 = true →
        ∃ path, (constructAncestorPath n a anc).2 = anc ++ path ∧
          chainFrom n path ∧ pathEnd n path a))
    (fun cs anc =>
      ((searchAncestorChildren n cs anc).1 = reachesList n cs) ∧
      ((searchAncestorChildren n cs anc).1 = false →
        (searchAncestorChildren n cs anc).2 = anc) ∧
      ((searchAncestorChildren n cs anc).1 = true →
        ∃ path c, c ∈ cs ∧ (searchAncestorChildren n cs anc).2 = anc ++ path ∧
          chainFrom n path ∧ pathEnd n path c))
    ?_ ?_ ?_ ?_ ?_ ?_ a anc
  · intro cs anc
    have hcap : constructAncestorPath n (.mk n.id cs) anc = (true, anc) := by
      simp [constructAncestorPath]
    refine ⟨by rw [hcap]; simp [reaches], by rw [hcap]; intro h; simp at h, ?_⟩
    intro _
    exact ⟨[], by rw [hcap]; simp, trivial, fun _ => rfl, fun h => absurd rfl h⟩
  · intro i cs anc hne anc' hs ih
    have hcap : constructAncestorPath n (.mk i cs) anc = (true, anc' ++ [.mk i cs]) := by
      simp [constructAncestorPath, hne, hs]
    have hrl : reachesList n cs = true := by rw [← ih.1, hs]
    refine ⟨?_, by rw [hcap]; intro h; simp at h, ?_⟩
    · rw [hcap]
      simp [reaches, hrl]
    · intro _
      obtain ⟨path₀, c, hcmem, hanc, hchain, hend⟩ := ih.2.2 (by rw [hs])
      rw [hs] at hanc
      have hanc2 : anc' = anc ++ path₀ := hanc
      refine ⟨path₀ ++ [.mk i cs], ?_, ?_, ?_, ?_⟩
      · rw [hcap, hanc2, List.append_assoc]
      · cases path₀ with
        | nil => exact ⟨⟨c, hcmem, (hend.1 rfl).symm⟩, trivial⟩
        | cons q qs =>
          exact chainFrom_append_last (.mk i cs) (q :: qs) n c hchain
            (hend.2 (by simp)) ⟨c, hcmem, rfl⟩
      · intro h
        simp at h
      · intro _
        exact List.getLast?_concat path₀
  · intro i cs anc hne anc' hs ih
    have hanc : anc' = anc := by
      have h := ih.2.1 (by rw [hs])
      rw [hs] at h
      exact h
    have hcap : constructAncestorPath n (.mk i cs) anc = (false, anc) := by
      simp [constructAncestorPath, hne, hs, hanc]
    have hrl : reachesList n cs = false := by rw [← ih.1, hs]
    refine ⟨?_, fun _ => by rw [hcap], fun h => ?_⟩
    · rw [hcap]
      simp [reaches, hrl, hne]
    · rw [hcap] at h
      simp at h
  · intro anc
    refine ⟨rfl, fun _ => rfl, fun h => ?_⟩
    simp [searchAncestorChildren, reachesList] at h
  · intro c cs anc anc' hc ih1
    have hsearch : searchAncestorChildren n (c :: cs) anc = (true, anc') := by
      simp [searchAncestorChildren, hc]
    have hr : reaches n c = true := by rw [← ih1.1, hc]
    refine ⟨?_, by rw [hsearch]; intro h; simp at h, ?_⟩
    · rw [hsearch]
      simp [reachesList, hr]
    · intro _
      obtain ⟨path, hanc, hchain, hend⟩ := ih1.2.2 (by rw [hc])
      rw [hc] at hanc
      exact ⟨path, c, List.mem_cons_self c cs, by rw [hsearch]; exact hanc, hchain, hend⟩
  · intro c cs anc anc' hc ih1 ih2
    have hanc : anc' = anc := by
      have := ih1.2.1 (by rw [hc])
      rw [hc] at this
      exact this
    have hsearch : searchAncestorChildren n (c :: cs) anc = searchAncestorChildren n cs anc' := by
      simp [searchAncestorChildren, hc]
    have hr : reaches n c = false := by rw [← ih1.1, hc]
    subst hanc
    refine ⟨?_, ?_, ?_⟩
    · rw [hsearch, ih2.1]
      simp [reachesList, hr]
    · intro h
      rw [hsearch] at h ⊢
      exact ih2.2.1 h
    · intro h
      rw [hsearch] at h ⊢
      obtain ⟨path, c', hc'mem, hanc, hchain, hend⟩ := ih2.2.2 h
      exact ⟨path, c', List.mem_cons_of_mem c hc'mem, hanc, hchain, hend⟩

/-- C7 counterexample: with `N` and `A` the same node, the search returns
true (the node is reachable from itself — the code's very first identity
check fires) yet appends nothing to the output sequence, so `A` itself is
not in the appended path as the claim requires. -/
theorem C7_constructAncestorPath_counterexample :
    constructAncestorPath (.mk 0 []) (.mk 0 []) [] = (true, []) ∧
    (PTree.mk 0 []) ∉ ([] : List PTree) := by
  exact ⟨rfl, by simp⟩

/-- C7 (amended): depth-first search from `A` for `N`.  When `N` is not
reachable from `A` it returns false and appends nothing; when `N` is `A`
itself it returns true and appends nothing; and when `N` is reachable and
distinct from `A` it returns true and appends a nonempty ancestor chain —
`N` is a child of the first entry, each entry is a child of the next, and
the last entry is `A` itself. -/
theorem C7_constructAncestorPath_semantics (n a : PTree) :
    (reaches n a = false → constructAncestorPath n a [] = (false, [])) ∧
    (n.id = a.id → constructAncestorPath n a [] = (true, [])) ∧
    (reaches n a = true → n.id ≠ a.id →
      ∃ path, constructAncestorPath n a [] = (true, path) ∧ path ≠ [] ∧
        chainFrom n path ∧ path.getLast? = some a) := by
  have hchar := cap_characterization n a []
  refine ⟨?_, ?_, ?_⟩
  · intro hr
    have h1 : (constructAncestorPath n a []).1 = false := by rw [hchar.1]; exact hr
    have h2 := hchar.2.1 h1
    calc constructAncestorPath n a []
        = ((constructAncestorPath n a []).1, (constructAncestorPath n a []).2) := rfl
      _ = (false, []) := by rw [h1, h2]
  · intro hid
    cases a with
    | mk i cs =>
      have hid2 : n.id = i := hid.trans rfl
      simp [constructAncestorPath, hid2]
  · intro hr hne
    have h1 : (constructAncestorPath n a []).1 = true := by rw [hchar.1]; exact hr
    obtain ⟨path, hp, hchain, hend⟩ := hchar.2.2 h1
    simp only [List.nil_append] at hp
    have hpne : path ≠ [] := by
      intro h
      exact hne (hend.1 h)
    refine ⟨path, ?_, hpne, hchain, hend.2 hpne⟩
    calc constructAncestorPath n a []
        = ((constructAncestorPath n a []).1, (constructAncestorPath n a []).2) := rfl
      _ = (true, path) := by rw [h1, hp]

/-- C7 witness: node 2 is not under the tree rooted at 0, so the search
fails and appends nothing. -/
theorem C7_constructAncestorPath_witness :
    constructAncestorPath (.mk 2 []) (.mk 0 [.mk 1 []]) [] = (false, []) :=
  (C7_constructAncestorPath_semantics (.mk 2 []) (.mk 0 [.mk 1 []])).1 rfl

end ShadowNode
